import Mathlib

/-!
# Verification of the themelio-utils canonical codec and crypto helpers

Shallow embedding of the `stdcode` canonical codec (a thin configuration of
bincode: varint integer encoding, little-endian literals, trailing-byte
rejection, and an input-length read limit), of the `try_asstr` and `hexvec`
serde adapters, and of the `tmelcrypt` helpers `majority_beacon`,
`bitwise_majority` and `Ed25519PK::verify`.

Bytes are modelled as `Nat` (with `< 256` where it matters), byte strings as
`List Nat`.  Fallible decoding returns `Except DecodeError`.  The read limit
of `stdcode::deserialize` equals the input length, and bincode claims the
limit before every read, so a read past the end of the input surfaces as
`sizeLimitExceeded`.
-/

namespace ThemelioUtils

/-- Decode-side error taxonomy of the spec: `Malformed` (structurally invalid
byte), `TrailingData` (input not fully consumed), `SizeLimitExceeded` (a read
would exceed the remaining input / read limit). -/
inductive DecodeError where
  | malformed
  | trailingData
  | sizeLimitExceeded
deriving DecidableEq, Repr

/-- Little-endian byte decomposition: `toLE k n` is `n` written as `k`
little-endian bytes (mirrors bincode writing fixed-width integer literals in
little-endian order). -/
def toLE : Nat → Nat → List Nat
  | 0, _ => []
  | k + 1, n => (n % 256) :: toLE k (n / 256)

/-- Little-endian byte recomposition, the reading direction of `toLE`. -/
def fromLE : List Nat → Nat
  | [] => 0
  | b :: bs => b + 256 * fromLE bs

/-- Reading `k` raw bytes.  bincode claims `k` bytes from the read limit
before reading, and `stdcode::deserialize` sets the limit to the input
length, so a shortfall is a `sizeLimitExceeded` failure (before any space
for the bytes is allocated). -/
def readBytes (k : Nat) (input : List Nat) : Except DecodeError (List Nat × List Nat) :=
  if k ≤ input.length then .ok (input.take k, input.drop k) else .error .sizeLimitExceeded

/-- Reading one byte; an exhausted input means the read limit is exhausted. -/
def readByte : List Nat → Except DecodeError (Nat × List Nat)
  | [] => .error .sizeLimitExceeded
  | b :: rest => .ok (b, rest)

/-- bincode `VarintEncoding` serialization of an unsigned integer:
values `0..=250` in one byte, then markers 251/252/253 followed by the
value as a 2-, 4-, or 8-byte little-endian literal. -/
def encodeVarint (n : Nat) : List Nat :=
  if n < 251 then [n]
  else if n < 2 ^ 16 then 251 :: toLE 2 n
  else if n < 2 ^ 32 then 252 :: toLE 4 n
  else 253 :: toLE 8 n

/-- bincode `VarintEncoding` deserialization of an unsigned integer.  A first
byte `0..=250` is the value itself; 251/252/253 announce a 2-, 4-, or 8-byte
little-endian literal; 254 (u128 range) and 255 (extension point) are
rejected.  Note that no minimality check is performed on the literal: this
mirrors the source exactly. -/
def decodeVarint (input : List Nat) : Except DecodeError (Nat × List Nat) :=
  match readByte input with
  | .error e => .error e
  | .ok (b, rest) =>
    if b ≤ 250 then .ok (b, rest)
    else if b = 251 then
      match readBytes 2 rest with
      | .error e => .error e
      | .ok (bs, r) => .ok (fromLE bs, r)
    else if b = 252 then
      match readBytes 4 rest with
      | .error e => .error e
      | .ok (bs, r) => .ok (fromLE bs, r)
    else if b = 253 then
      match readBytes 8 rest with
      | .error e => .error e
      | .ok (bs, r) => .ok (fromLE bs, r)
    else .error .malformed

theorem toLE_length (k n : Nat) : (toLE k n).length = k := by
  induction k generalizing n with
  | zero => rfl
  | succ k ih => simp [toLE, ih]

theorem fromLE_toLE {k n : Nat} (h : n < 256 ^ k) : fromLE (toLE k n) = n := by
  induction k generalizing n with
  | zero =>
    simp [pow_zero] at h
    simp [toLE, fromLE, h]
  | succ k ih =>
    have hdiv : n / 256 < 256 ^ k := by
      rw [Nat.div_lt_iff_lt_mul (by norm_num : 0 < 256)]
      calc n < 256 ^ (k + 1) := h
        _ = 256 ^ k * 256 := by ring
    simp [toLE, fromLE, ih hdiv, Nat.mod_add_div]

theorem readBytes_exact {k : Nat} {bs : List Nat} (h : bs.length = k) (rest : List Nat) :
    readBytes k (bs ++ rest) = .ok (bs, rest) := by
  subst h
  simp [readBytes, List.take_left, List.drop_left]

theorem readBytes_short {k : Nat} {input : List Nat} (h : input.length < k) :
    readBytes k input = .error .sizeLimitExceeded := by
  simp [readBytes, Nat.not_le.mpr h]

theorem decodeVarint_encodeVarint {n : Nat} (h : n < 2 ^ 64) (rest : List Nat) :
    decodeVarint (encodeVarint n ++ rest) = .ok (n, rest) := by
  by_cases h1 : n < 251
  · simp [encodeVarint, decodeVarint, readByte, h1, Nat.lt_succ_iff.mp h1]
  · by_cases h2 : n < 2 ^ 16
    · have he : fromLE (toLE 2 n) = n := fromLE_toLE (by norm_num at h2 ⊢; omega)
      have h2n : n < 65536 := by norm_num at h2; omega
      simp [encodeVarint, decodeVarint, readByte, h1, h2n,
        readBytes_exact (toLE_length 2 n) rest, he, show ¬(251 : Nat) ≤ 250 by norm_num]
    · by_cases h3 : n < 2 ^ 32
      · have he : fromLE (toLE 4 n) = n := fromLE_toLE (by norm_num at h3 ⊢; omega)
        have h2n : ¬n < 65536 := by norm_num at h2; omega
        have h3n : n < 4294967296 := by norm_num at h3; omega
        simp [encodeVarint, decodeVarint, readByte, h1, h2n, h3n,
          readBytes_exact (toLE_length 4 n) rest, he, show ¬(252 : Nat) ≤ 250 by norm_num]
      · have he : fromLE (toLE 8 n) = n := fromLE_toLE (by norm_num at h ⊢; omega)
        have h2n : ¬n < 65536 := by norm_num at h2; omega
        have h3n : ¬n < 4294967296 := by norm_num at h3; omega
        simp [encodeVarint, decodeVarint, readByte, h1, h2n, h3n,
          readBytes_exact (toLE_length 8 n) rest, he, show ¬(253 : Nat) ≤ 250 by norm_num]

/-- A representative universe of stdcode-serializable (serde) types:
unsigned 64-bit integers, booleans, byte strings (the bincode byte-buffer
path: varint length then raw bytes), homogeneous sequences, options, a
two-variant tagged union, and a two-field struct (fields in declared
order). -/
inductive Ty where
  | u64T
  | boolT
  | bytesT
  | listT (t : Ty)
  | optT (t : Ty)
  | enumT (a b : Ty)
  | pairT (a b : Ty)
deriving DecidableEq, Repr

/-- Values of the universe.  `vleft`/`vright` are the two variants of the
tagged union; `vpair` a two-field struct in declaration order. -/
inductive Value where
  | vu64 (n : Nat)
  | vbool (b : Bool)
  | vbytes (bs : List Nat)
  | vlist (vs : List Value)
  | vnone
  | vsome (v : Value)
  | vleft (v : Value)
  | vright (v : Value)
  | vpair (a b : Value)

/-- Typing relation, including the machine-representability bounds a Rust
value carries by construction (`u64` fits 64 bits, `usize` lengths fit 64
bits, bytes fit 8 bits). -/
inductive WT : Ty → Value → Prop where
  | u64 {n : Nat} : n < 2 ^ 64 → WT .u64T (.vu64 n)
  | bool {b : Bool} : WT .boolT (.vbool b)
  | bytes {bs : List Nat} : bs.length < 2 ^ 64 → (∀ b ∈ bs, b < 256) →
      WT .bytesT (.vbytes bs)
  | list {t : Ty} {vs : List Value} : vs.length < 2 ^ 64 → (∀ v ∈ vs, WT t v) →
      WT (.listT t) (.vlist vs)
  | none {t : Ty} : WT (.optT t) .vnone
  | some {t : Ty} {v : Value} : WT t v → WT (.optT t) (.vsome v)
  | left {a b : Ty} {v : Value} : WT a v → WT (.enumT a b) (.vleft v)
  | right {a b : Ty} {v : Value} : WT b v → WT (.enumT a b) (.vright v)
  | pair {a b : Ty} {va vb : Value} : WT a va → WT b vb → WT (.pairT a b) (.vpair va vb)

mutual

/-- The byte string emitted by `stdcode::serialize` (bincode with varint
encoding): integers as varints, booleans as one byte, byte strings and
sequences as a varint length followed by the elements, options as a 0/1 tag
byte, tagged unions as a varint discriminant followed by the active variant,
structs as the concatenation of their fields in declared order. -/
def encodeVal : Value → List Nat
  | .vu64 n => encodeVarint n
  | .vbool b => if b then [1] else [0]
  | .vbytes bs => encodeVarint bs.length ++ bs
  | .vlist vs => encodeVarint vs.length ++ encodeValList vs
  | .vnone => [0]
  | .vsome v => 1 :: encodeVal v
  | .vleft v => encodeVarint 0 ++ encodeVal v
  | .vright v => encodeVarint 1 ++ encodeVal v
  | .vpair a b => encodeVal a ++ encodeVal b

/-- Concatenated encodings of the elements of a sequence, in order. -/
def encodeValList : List Value → List Nat
  | [] => []
  | v :: vs => encodeVal v ++ encodeValList vs

end

/-- Serialize-side error taxonomy of bincode.  For the types of this universe
the only structural error bincode can raise while serializing is a sequence
of statically unknown length; serde sequences always supply their length. -/
inductive SerError where
  | sequenceMustHaveLength
deriving DecidableEq, Repr

/-- Writing a sequence length: bincode demands a known length and then emits
it as a varint. -/
def writeLen : Option Nat → Except SerError (List Nat)
  | Option.none => .error .sequenceMustHaveLength
  | Option.some n => .ok (encodeVarint n)

mutual

/-- `stdcode::serialize`, with bincode's `Result` type made explicit.  Serde
supplies `Option.some` of the length for every `Vec`, so no error path is
reachable for this universe (theorem `serializeRes_eq`). -/
def serializeRes : Value → Except SerError (List Nat)
  | .vu64 n => .ok (encodeVarint n)
  | .vbool b => .ok (if b then [1] else [0])
  | .vbytes bs =>
    match writeLen (Option.some bs.length) with
    | .error e => .error e
    | .ok l => .ok (l ++ bs)
  | .vlist vs =>
    match writeLen (Option.some vs.length) with
    | .error e => .error e
    | .ok l =>
      match serializeResList vs with
      | .error e => .error e
      | .ok body => .ok (l ++ body)
  | .vnone => .ok [0]
  | .vsome v =>
    match serializeRes v with
    | .error e => .error e
    | .ok bs => .ok (1 :: bs)
  | .vleft v =>
    match serializeRes v with
    | .error e => .error e
    | .ok bs => .ok (encodeVarint 0 ++ bs)
  | .vright v =>
    match serializeRes v with
    | .error e => .error e
    | .ok bs => .ok (encodeVarint 1 ++ bs)
  | .vpair a b =>
    match serializeRes a with
    | .error e => .error e
    | .ok ba =>
      match serializeRes b with
      | .error e => .error e
      | .ok bb => .ok (ba ++ bb)

/-- Serialization of the elements of a sequence, in order. -/
def serializeResList : List Value → Except SerError (List Nat)
  | [] => .ok []
  | v :: vs =>
    match serializeRes v with
    | .error e => .error e
    | .ok bs =>
      match serializeResList vs with
      | .error e => .error e
      | .ok rest => .ok (bs ++ rest)

end

/-- `StdcodeSerializeExt::stdcode`: serialize and unwrap.  The unwrap of the
`Result` is modelled as `Except.toOption`; a `Option.none` result would be a
panic in the source. -/
def stdcode (v : Value) : Option (List Nat) := (serializeRes v).toOption

/-- Decoding `n` consecutive values with the decoder `d` (bincode's sequence
element loop). -/
def decodeMany {α : Type} (d : List Nat → Except DecodeError (α × List Nat)) :
    Nat → List Nat → Except DecodeError (List α × List Nat)
  | 0, input => .ok ([], input)
  | n + 1, input =>
    match d input with
    | .error e => .error e
    | .ok (v, r) =>
      match decodeMany d n r with
      | .error e => .error e
      | .ok (vs, r2) => .ok (v :: vs, r2)

/-- The type-directed bincode decoder, consuming a prefix of the input and
returning the rest.  Byte strings check their declared length against the
remaining input (the read limit) before building the buffer; sequences read
their elements one by one, each read bounded by the limit; an invalid bool
byte, option tag, or union discriminant is `malformed`. -/
def decodeTy : Ty → List Nat → Except DecodeError (Value × List Nat)
  | .u64T, input =>
    match decodeVarint input with
    | .error e => .error e
    | .ok (n, r) => .ok (.vu64 n, r)
  | .boolT, input =>
    match input with
    | [] => .error .sizeLimitExceeded
    | 0 :: r => .ok (.vbool false, r)
    | 1 :: r => .ok (.vbool true, r)
    | _ :: _ => .error .malformed
  | .bytesT, input =>
    match decodeVarint input with
    | .error e => .error e
    | .ok (n, r) =>
      match readBytes n r with
      | .error e => .error e
      | .ok (bs, r2) => .ok (.vbytes bs, r2)
  | .listT t, input =>
    match decodeVarint input with
    | .error e => .error e
    | .ok (n, r) =>
      match decodeMany (decodeTy t) n r with
      | .error e => .error e
      | .ok (vs, r2) => .ok (.vlist vs, r2)
  | .optT t, input =>
    match input with
    | [] => .error .sizeLimitExceeded
    | 0 :: r => .ok (.vnone, r)
    | 1 :: r =>
      match decodeTy t r with
      | .error e => .error e
      | .ok (v, r2) => .ok (.vsome v, r2)
    | _ :: _ => .error .malformed
  | .enumT a b, input =>
    match decodeVarint input with
    | .error e => .error e
    | .ok (0, r) =>
      match decodeTy a r with
      | .error e => .error e
      | .ok (v, r2) => .ok (.vleft v, r2)
    | .ok (1, r) =>
      match decodeTy b r with
      | .error e => .error e
      | .ok (v, r2) => .ok (.vright v, r2)
    | .ok (_ + 2, _) => .error .malformed
  | .pairT a b, input =>
    match decodeTy a input with
    | .error e => .error e
    | .ok (va, r) =>
      match decodeTy b r with
      | .error e => .error e
      | .ok (vb, r2) => .ok (.vpair va vb, r2)

/-- `stdcode::deserialize`: decode with the read limit set to the input
length and reject any unconsumed trailing bytes. -/
def deserialize (t : Ty) (bts : List Nat) : Except DecodeError Value :=
  match decodeTy t bts with
  | .error e => .error e
  | .ok (v, []) => .ok v
  | .ok (_, _ :: _) => .error .trailingData

mutual

theorem serializeRes_eq : ∀ v : Value, serializeRes v = .ok (encodeVal v)
  | .vu64 n => by simp [serializeRes, encodeVal]
  | .vbool b => by simp [serializeRes, encodeVal]
  | .vbytes bs => by simp [serializeRes, encodeVal, writeLen]
  | .vlist vs => by simp [serializeRes, encodeVal, writeLen, serializeResList_eq vs]
  | .vnone => by simp [serializeRes, encodeVal]
  | .vsome v => by simp [serializeRes, encodeVal, serializeRes_eq v]
  | .vleft v => by simp [serializeRes, encodeVal, serializeRes_eq v]
  | .vright v => by simp [serializeRes, encodeVal, serializeRes_eq v]
  | .vpair a b => by simp [serializeRes, encodeVal, serializeRes_eq a, serializeRes_eq b]

theorem serializeResList_eq : ∀ vs : List Value, serializeResList vs = .ok (encodeValList vs)
  | [] => by simp [serializeResList, encodeValList]
  | v :: vs => by
    simp [serializeResList, encodeValList, serializeRes_eq v, serializeResList_eq vs]

end

/-- Decoding the concatenated encodings of a sequence recovers the sequence,
given the round-trip property for every element. -/
theorem decodeMany_encList {t : Ty} :
    ∀ vs : List Value,
      (∀ v ∈ vs, ∀ rest, decodeTy t (encodeVal v ++ rest) = .ok (v, rest)) →
      ∀ rest, decodeMany (decodeTy t) vs.length (encodeValList vs ++ rest) = .ok (vs, rest) := by
  intro vs
  induction vs with
  | nil => intro _ rest; simp [encodeValList, decodeMany]
  | cons v vs ih =>
    intro h rest
    have hv := h v (List.mem_cons_self v vs)
    have hrest := ih fun w hw => h w (List.mem_cons_of_mem v hw)
    simp only [encodeValList, List.length_cons, List.append_assoc, decodeMany,
      hv (encodeValList vs ++ rest), hrest rest]

/-- Prefix round-trip: decoding the encoding of a well-typed value, followed
by any suffix, returns exactly the value and the untouched suffix. -/
theorem encDec {t : Ty} {v : Value} (h : WT t v) :
    ∀ rest, decodeTy t (encodeVal v ++ rest) = .ok (v, rest) := by
  induction h with
  | u64 hn =>
    intro rest
    simp [encodeVal, decodeTy, decodeVarint_encodeVarint hn rest]
  | bool =>
    intro rest
    rename_i b
    cases b <;> simp [encodeVal, decodeTy]
  | bytes hlen helem =>
    intro rest
    rename_i bs
    simp only [encodeVal, List.append_assoc, decodeTy,
      decodeVarint_encodeVarint hlen (bs ++ rest), readBytes_exact rfl rest]
  | list hlen hmem ih =>
    intro rest
    rename_i t vs
    simp only [encodeVal, List.append_assoc, decodeTy,
      decodeVarint_encodeVarint hlen (encodeValList vs ++ rest),
      decodeMany_encList vs ih rest]
  | none => intro rest; simp [encodeVal, decodeTy]
  | some hv ih =>
    intro rest
    simp [encodeVal, decodeTy, ih rest]
  | left hv ih =>
    intro rest
    rename_i a b v
    simp only [encodeVal, List.append_assoc, decodeTy,
      decodeVarint_encodeVarint (show (0 : Nat) < 2 ^ 64 by norm_num) (encodeVal v ++ rest),
      ih rest]
  | right hv ih =>
    intro rest
    rename_i a b v
    simp only [encodeVal, List.append_assoc, decodeTy,
      decodeVarint_encodeVarint (show (1 : Nat) < 2 ^ 64 by norm_num) (encodeVal v ++ rest),
      ih rest]
  | pair ha hb iha ihb =>
    intro rest
    rename_i a b va vb
    simp only [encodeVal, List.append_assoc, decodeTy, iha (encodeVal vb ++ rest), ihb rest]

/-- C1: round-trip.  For every well-typed value `v` of a stdcode-serializable
type, `stdcode::serialize` succeeds with some byte string, and
`stdcode::deserialize` of that byte string succeeds and returns `v`. -/
theorem stdcode_roundtrip (t : Ty) (v : Value) (h : WT t v) :
    ∃ bs, serializeRes v = .ok bs ∧ deserialize t bs = .ok v := by
  refine ⟨encodeVal v, serializeRes_eq v, ?_⟩
  have hd := encDec h []
  rw [List.append_nil] at hd
  simp [deserialize, hd]

/-- Witness for C1 at the concrete value `(300u64, Some(vec[0u8, 255u8]))`. -/
theorem stdcode_roundtrip_witness :
    ∃ bs, serializeRes (.vpair (.vu64 300) (.vsome (.vbytes [0, 255]))) = .ok bs ∧
      deserialize (.pairT .u64T (.optT .bytesT)) bs
        = .ok (.vpair (.vu64 300) (.vsome (.vbytes [0, 255]))) :=
  stdcode_roundtrip _ _
    (WT.pair (WT.u64 (by norm_num)) (WT.some (WT.bytes (by norm_num) (by decide))))

/-- C2 counterexample: canonical-only acceptance fails.  The byte string
`[251, 5, 0]` (marker 251 followed by the 2-byte little-endian literal 5) is
accepted by `stdcode::deserialize::<u64>` and decodes to `5`, yet
`stdcode::serialize(5u64)` is `[5]`, not `[251, 5, 0]`: bincode's varint
decoder performs no minimality check on multi-byte literals. -/
theorem stdcode_canonical_cex :
    deserialize .u64T [251, 5, 0] = .ok (.vu64 5) ∧
    serializeRes (.vu64 5) = .ok [5] ∧ ([5] : List Nat) ≠ [251, 5, 0] := by
  refine ⟨?_, ?_, by simp⟩
  · simp [deserialize, decodeTy, decodeVarint, readByte, readBytes, fromLE]
  · simp [serializeRes, encodeVarint]

/-- C2 amended: accepted inputs are consumed exactly and `serialize` is a
deterministic, injective function of the value, so every value has a unique
canonical encoding and `deserialize (serialize v) = v`; but `deserialize`
also accepts non-minimal varint spellings of integers, so an accepted input
need not equal the serialization of its decoded value.  This theorem is the
injectivity half. -/
theorem stdcode_encode_injective (t : Ty) (v1 v2 : Value) (h1 : WT t v1) (h2 : WT t v2)
    (he : encodeVal v1 = encodeVal v2) : v1 = v2 := by
  have e1 := encDec h1 []
  have e2 := encDec h2 []
  rw [he, e2] at e1
  exact (congrArg Prod.fst (Except.ok.inj e1)).symm

/-- Witness for the amended C2 theorem at `7u64`. -/
theorem stdcode_encode_injective_witness : Value.vu64 7 = Value.vu64 7 :=
  stdcode_encode_injective .u64T _ _ (WT.u64 (by norm_num)) (WT.u64 (by norm_num)) rfl

/-- C3: trailing-byte rejection.  Appending any extra byte to the
serialization of a well-typed value makes `stdcode::deserialize` fail with
`TrailingData`. -/
theorem stdcode_trailing_reject (t : Ty) (v : Value) (h : WT t v) (b : Nat) :
    deserialize t (encodeVal v ++ [b]) = .error .trailingData := by
  simp [deserialize, encDec h [b]]

/-- Witness for C3: `serialize(vec[0xDE, 0xAD, 0xBE, 0xEF]) ++ [0x00]` is
rejected with `TrailingData`. -/
theorem stdcode_trailing_reject_witness :
    deserialize .bytesT (encodeVal (.vbytes [222, 173, 190, 239]) ++ [0])
      = .error .trailingData :=
  stdcode_trailing_reject _ _ (WT.bytes (by norm_num) (by decide)) 0

/-- C4: size-limit enforcement.  A byte-string field whose declared varint
length exceeds the bytes remaining in the input fails with
`SizeLimitExceeded`; by the definition of `readBytes` the declared length is
checked against the remaining input before any buffer is built, so
allocation is bounded by the input's own length. -/
theorem stdcode_size_limit (len : Nat) (rest : List Nat) (h1 : len < 2 ^ 64)
    (h2 : rest.length < len) :
    deserialize .bytesT (encodeVarint len ++ rest) = .error .sizeLimitExceeded := by
  simp [deserialize, decodeTy, decodeVarint_encodeVarint h1 rest, readBytes_short h2]

/-- Witness for C4: a crafted buffer declaring a length of `10^9` with only
four bytes of payload fails with `SizeLimitExceeded`. -/
theorem stdcode_size_limit_witness :
    deserialize .bytesT (encodeVarint (10 ^ 9) ++ [0, 0, 0, 0])
      = .error .sizeLimitExceeded :=
  stdcode_size_limit (10 ^ 9) [0, 0, 0, 0] (by norm_num) (by norm_num)

/-- C5: encode totality.  `stdcode::serialize` returns `Ok` for every value
of the universe, and hence `StdcodeSerializeExt::stdcode`, which unwraps the
result, always produces a byte string (never panics). -/
theorem stdcode_encode_total (v : Value) :
    serializeRes v = .ok (encodeVal v) ∧ stdcode v = Option.some (encodeVal v) :=
  ⟨serializeRes_eq v, by simp [stdcode, serializeRes_eq v, Except.toOption]⟩

/-! ## The `try_asstr` lenient adapter over a human-readable format

The human-readable side of serde is modelled by a small JSON-like value
type: the deserializer input of a field is the JSON value standing at that
field, exactly as serde's untagged machinery sees it (a buffered
self-describing `Content` tree). -/

/-- JSON-like values of the human-readable format. -/
inductive Json where
  | str (s : String)
  | arr (elems : List Json)
  | obj (fields : List (String × Json))

/-- Surface shape test: is the input a (quoted) string? -/
def Json.isStr : Json → Bool
  | .str _ => true
  | _ => false

/-- `String::deserialize` from a self-describing human-readable value:
succeeds exactly on string-shaped input. -/
def stringFromJson : Json → Except String String
  | .str s => .ok s
  | .arr _ => .error "invalid type: sequence, expected a string"
  | .obj _ => .error "invalid type: map, expected a string"

/-- The untagged enum of `try_asstr`: either a plain string or a value of
the wrapped type. -/
inductive MaybeString (α : Type) where
  | string (s : String)
  | tee (t : α)

/-- Serde's untagged-enum deserialization of `MaybeString<T>`: try the
`String` variant on the buffered content first; if it fails, discard the
failure and try the `Tee` variant; if both fail, report the untagged-enum
error. -/
def maybeStringFromJson {α : Type} (d : Json → Except String α) (j : Json) :
    Except String (MaybeString α) :=
  match stringFromJson j with
  | .ok s => .ok (.string s)
  | .error _ =>
    match d j with
    | .ok t => .ok (.tee t)
    | .error _ => .error "data did not match any variant of untagged enum MaybeString"

/-- The string branch of `try_asstr::deserialize`: `s.parse()` with the
parse failure wrapped in a custom serde error. -/
def parseBranch {α : Type} (f : String → Except String α) (s : String) : Except String α :=
  match f s with
  | .ok v => .ok v
  | .error e => .error ("FromStr parsing error " ++ e)

/-- `try_asstr::deserialize` in a human-readable format: deserialize a
`MaybeString<T>`; a `String` result is parsed via `FromStr`, a `Tee` result
is returned as-is. -/
def tryAsstrDeHuman {α : Type} (f : String → Except String α)
    (d : Json → Except String α) (j : Json) : Except String α :=
  match maybeStringFromJson d j with
  | .ok (.string s) => parseBranch f s
  | .ok (.tee t) => .ok t
  | .error e => .error e

/-- `try_asstr::serialize` in a human-readable format:
`serializer.serialize_str(val.to_string())`. -/
def tryAsstrSerHuman {α : Type} (toStr : α → String) (v : α) : Json :=
  .str (toStr v)

/-- The test type of `try_asstr`: a struct with a single string field
`laboo`; its `FromStr` wraps the whole string (infallibly). -/
structure Inner where
  laboo : String

/-- `FromStr` of `Inner` (from the source's test): always succeeds, storing
the string in `laboo`. -/
def innerFromStr (s : String) : Except String Inner := .ok ⟨s⟩

/-- Derived deserialization of `Inner` from a human-readable value: a map
with a string at field `laboo`. -/
def innerFromJson : Json → Except String Inner
  | .obj fields =>
    match fields.lookup "laboo" with
    | Option.some (Json.str s) => .ok ⟨s⟩
    | _ => .error "missing or invalid field laboo"
  | _ => .error "invalid type: expected struct Inner"

/-- C6: lenient adapter equivalence.  Decoding the Display string form
`"hello"` and decoding the native structured form with `laboo = "hello"`
yield the identical value, and human-readable encoding always produces a
string-shaped output (the Display form). -/
theorem tryasstr_lenient_equiv :
    tryAsstrDeHuman innerFromStr innerFromJson (Json.str "hello") = .ok ⟨"hello"⟩ ∧
    tryAsstrDeHuman innerFromStr innerFromJson (Json.obj [("laboo", Json.str "hello")])
      = .ok ⟨"hello"⟩ ∧
    ∀ (toStr : Inner → String) (v : Inner), ∃ s, tryAsstrSerHuman toStr v = Json.str s := by
  refine ⟨rfl, ?_, fun toStr v => ⟨toStr v, rfl⟩⟩
  simp [tryAsstrDeHuman, maybeStringFromJson, stringFromJson, innerFromJson, List.lookup]

/-- C7 counterexample: on the structured input with `laboo = "hello"`, the
`String` branch of the untagged decode is attempted and fails, and the
decode nevertheless succeeds through the native branch — a branch is
attempted and then discarded on failure with the other branch tried
instead, contradicting the claim's branch discipline. -/
theorem tryasstr_branch_cex :
    stringFromJson (Json.obj [("laboo", Json.str "hello")])
        = .error "invalid type: map, expected a string" ∧
      tryAsstrDeHuman innerFromStr innerFromJson (Json.obj [("laboo", Json.str "hello")])
        = .ok ⟨"hello"⟩ := by
  constructor
  · rfl
  · simp [tryAsstrDeHuman, maybeStringFromJson, stringFromJson, innerFromJson, List.lookup]

/-- C7 amended: the surface shape of the input alone still determines which
branch produces the result — string-shaped input is handled by the parse
branch, and for non-string input the decode succeeds exactly when the
native decode succeeds, with the same value — but the mechanism realizing
this is serde's untagged try-in-order rule, which on non-string input
attempts the `String` branch and discards its failure. -/
theorem tryasstr_branch_amended (α : Type) (f : String → Except String α)
    (d : Json → Except String α) (j : Json) :
    (∀ s, j = Json.str s → tryAsstrDeHuman f d j = parseBranch f s) ∧
    (j.isStr = false → ∀ v, (tryAsstrDeHuman f d j = .ok v ↔ d j = .ok v)) := by
  constructor
  · rintro s rfl
    simp [tryAsstrDeHuman, maybeStringFromJson, stringFromJson]
  · intro hs v
    cases j with
    | str s => simp [Json.isStr] at hs
    | arr es =>
      simp only [tryAsstrDeHuman, maybeStringFromJson, stringFromJson]
      cases h : d (Json.arr es) <;> simp [h]
    | obj fs =>
      simp only [tryAsstrDeHuman, maybeStringFromJson, stringFromJson]
      cases h : d (Json.obj fs) <;> simp [h]

/-- Witness for the amended C7 theorem: the parse branch handles the
string-shaped input `"hi"`. -/
theorem tryasstr_branch_amended_witness :
    tryAsstrDeHuman innerFromStr innerFromJson (Json.str "hi")
      = parseBranch innerFromStr "hi" :=
  (tryasstr_branch_amended Inner innerFromStr innerFromJson (Json.str "hi")).1 "hi" rfl

/-! ## The `hexvec` bulk hex adapter

`hexvec::serialize` reinterprets `&[Vec<u8>]` as `&[HexBytes]` through the
`repr(transparent)` wrapper and serializes that; `hexvec::deserialize`
deserializes a `Vec<HexBytes>` and reinterprets it back.  In the embedding
the layout-level reinterpretation is the pointwise re-wrapping of each
buffer (which is what `repr(transparent)` guarantees it to be, observed
element by element); C8 compares it against the explicit element-wise wrap
written out from the spec. -/

/-- The `repr(transparent)` single-field wrapper of `hexvec.rs`, carrying a
byte buffer whose text form is hex. -/
structure HexBytes where
  bytes : List Nat

/-- Modelled from the spec: the text mode of the `crate::hex` adapter
(src/stdcode/src/hex.rs is not under src/) emits a lowercase, even-length
hex string.  Hex digit of a value below 16. -/
def hexDigit (n : Nat) : Char :=
  if n < 10 then Char.ofNat (48 + n) else Char.ofNat (87 + n)

/-- Modelled from the spec: lowercase hex encoding of a byte buffer, two
digits per byte, no marker. -/
def hexEncode (bs : List Nat) : String :=
  String.mk (bs.foldr (fun b acc => hexDigit (b / 16) :: hexDigit (b % 16) :: acc) [])

/-- Modelled from the spec: value of a lowercase hex digit, if any. -/
def hexDigitVal (c : Char) : Option Nat :=
  if 48 ≤ c.toNat ∧ c.toNat ≤ 57 then Option.some (c.toNat - 48)
  else if 97 ≤ c.toNat ∧ c.toNat ≤ 102 then Option.some (c.toNat - 87)
  else Option.none

/-- Modelled from the spec: hex decoding of a character list; an odd length
or a non-hex character is an `InvalidHex` failure. -/
def hexDecodeChars : List Char → Except String (List Nat)
  | [] => .ok []
  | [_] => .error "InvalidHex: odd length"
  | c1 :: c2 :: rest =>
    match hexDigitVal c1, hexDigitVal c2 with
    | Option.some hi, Option.some lo =>
      match hexDecodeChars rest with
      | .ok bs => .ok ((16 * hi + lo) :: bs)
      | .error e => .error e
    | _, _ => .error "InvalidHex: invalid character"

/-- Modelled from the spec: hex decoding of a string. -/
def hexDecode (s : String) : Except String (List Nat) := hexDecodeChars s.data

/-- The zero-copy reinterpretation `&[Vec<u8>] -> &[HexBytes]`, observed
extensionally: each buffer is viewed through the transparent wrapper. -/
def castVecToHex (vs : List (List Nat)) : List HexBytes := vs.map HexBytes.mk

/-- The zero-copy reinterpretation `Vec<HexBytes> -> Vec<Vec<u8>>`. -/
def castHexToVec (hs : List HexBytes) : List (List Nat) := hs.map HexBytes.bytes

/-- Binary serialization of one `HexBytes`: the hex adapter's binary mode is
the native byte-vector form (varint length then raw bytes). -/
def hexBytesSerBin (h : HexBytes) : List Nat := encodeVarint h.bytes.length ++ h.bytes

/-- Binary serialization of a sequence: varint length then concatenated
element serializations. -/
def seqSerBin {α : Type} (f : α → List Nat) (xs : List α) : List Nat :=
  encodeVarint xs.length ++ (xs.map f).flatten

/-- `hexvec::serialize` for a binary format: reinterpret, then serialize
the sequence of wrappers. -/
def hexvecSerBin (vs : List (List Nat)) : List Nat :=
  seqSerBin hexBytesSerBin (castVecToHex vs)

/-- The spec's fallback: explicit element-wise wrap of each buffer, then
the same sequence serialization, for a binary format. -/
def hexvecSerBinElemwise (vs : List (List Nat)) : List Nat :=
  seqSerBin (fun bs => hexBytesSerBin ⟨bs⟩) vs

/-- Human-readable serialization of one `HexBytes`: a hex string. -/
def hexBytesSerHuman (h : HexBytes) : Json := .str (hexEncode h.bytes)

/-- `hexvec::serialize` for a human-readable format: reinterpret, then
serialize the sequence of wrappers as an array of hex strings. -/
def hexvecSerHuman (vs : List (List Nat)) : Json :=
  .arr ((castVecToHex vs).map hexBytesSerHuman)

/-- The spec's fallback, element-wise, for a human-readable format. -/
def hexvecSerHumanElemwise (vs : List (List Nat)) : Json :=
  .arr (vs.map fun bs => hexBytesSerHuman ⟨bs⟩)

/-- Binary deserialization of one `HexBytes` (native byte-vector form). -/
def hexBytesDeBin (input : List Nat) : Except DecodeError (HexBytes × List Nat) :=
  match decodeVarint input with
  | .error e => .error e
  | .ok (n, r) =>
    match readBytes n r with
    | .error e => .error e
    | .ok (bs, r2) => .ok (⟨bs⟩, r2)

/-- Binary deserialization of a sequence with element decoder `d`. -/
def seqDeBin {α : Type} (d : List Nat → Except DecodeError (α × List Nat))
    (input : List Nat) : Except DecodeError (List α × List Nat) :=
  match decodeVarint input with
  | .error e => .error e
  | .ok (n, r) => decodeMany d n r

/-- `hexvec::deserialize` for a binary format: deserialize a sequence of
wrappers, then reinterpret back to raw buffers. -/
def hexvecDeBin (input : List Nat) : Except DecodeError (List (List Nat) × List Nat) :=
  match seqDeBin hexBytesDeBin input with
  | .error e => .error e
  | .ok (hs, r) => .ok (castHexToVec hs, r)

/-- Post-composition of a binary element decoder with a pure function on
the decoded value. -/
def postmapDeBin {α β : Type} (g : α → β)
    (d : List Nat → Except DecodeError (α × List Nat)) :
    List Nat → Except DecodeError (β × List Nat) := fun i =>
  match d i with
  | .error e => .error e
  | .ok (v, r) => .ok (g v, r)

/-- The spec's fallback: element-wise decode-and-unwrap, for a binary
format. -/
def hexvecDeBinElemwise (input : List Nat) : Except DecodeError (List (List Nat) × List Nat) :=
  seqDeBin (postmapDeBin HexBytes.bytes hexBytesDeBin) input

/-- Human-readable deserialization of one `HexBytes`: a hex string. -/
def hexBytesDeHuman : Json → Except String HexBytes
  | .str s =>
    match hexDecode s with
    | .ok bs => .ok ⟨bs⟩
    | .error e => .error e
  | _ => .error "invalid type: expected a hex string"

/-- Deserialization of the elements of a human-readable sequence, in
order. -/
def mapExcept {α β : Type} (d : α → Except String β) : List α → Except String (List β)
  | [] => .ok []
  | e :: es =>
    match d e with
    | .error err => .error err
    | .ok v =>
      match mapExcept d es with
      | .error err => .error err
      | .ok vs => .ok (v :: vs)

/-- Human-readable deserialization of a sequence with element decoder `d`. -/
def seqDeHuman {α : Type} (d : Json → Except String α) : Json → Except String (List α)
  | .arr es => mapExcept d es
  | _ => .error "invalid type: expected a sequence"

/-- `hexvec::deserialize` for a human-readable format. -/
def hexvecDeHuman (j : Json) : Except String (List (List Nat)) :=
  match seqDeHuman hexBytesDeHuman j with
  | .error e => .error e
  | .ok hs => .ok (castHexToVec hs)

/-- Post-composition of a human-readable element decoder with a pure
function on the decoded value. -/
def postmapDeHuman {β γ : Type} (g : β → γ) (d : Json → Except String β) :
    Json → Except String γ := fun e =>
  match d e with
  | .error err => .error err
  | .ok v => .ok (g v)

/-- The spec's fallback: element-wise decode-and-unwrap, human-readable. -/
def hexvecDeHumanElemwise (j : Json) : Except String (List (List Nat)) :=
  seqDeHuman (postmapDeHuman HexBytes.bytes hexBytesDeHuman) j

/-- Post-composing a binary element decoder with a pure function commutes
with decoding a fixed number of elements. -/
theorem decodeMany_postmap {α β : Type} (g : α → β)
    (d : List Nat → Except DecodeError (α × List Nat)) :
    ∀ (n : Nat) (input : List Nat),
      decodeMany (postmapDeBin g d) n input
        = match decodeMany d n input with
          | .error e => .error e
          | .ok (vs, r) => .ok (vs.map g, r) := by
  have happ : ∀ i, postmapDeBin g d i
      = match d i with
        | .error e => .error e
        | .ok (v, r) => .ok (g v, r) := fun _ => rfl
  intro n
  induction n with
  | zero => intro input; simp [decodeMany]
  | succ n ih =>
    intro input
    simp only [decodeMany, happ]
    cases d input with
    | error e => simp
    | ok p =>
      obtain ⟨v, r⟩ := p
      simp only [ih]
      cases decodeMany d n r with
      | error e => simp
      | ok q =>
        obtain ⟨vs, r2⟩ := q
        simp

/-- Post-composing a human-readable element decoder with a pure function
commutes with decoding a sequence. -/
theorem mapExcept_postmap {β γ : Type} (g : β → γ) (d : Json → Except String β) :
    ∀ es : List Json,
      mapExcept (postmapDeHuman g d) es
        = match mapExcept d es with
          | .error err => .error err
          | .ok vs => .ok (vs.map g) := by
  have happ : ∀ e, postmapDeHuman g d e
      = match d e with
        | .error err => .error err
        | .ok v => .ok (g v) := fun _ => rfl
  intro es
  induction es with
  | nil => simp [mapExcept]
  | cons e es ih =>
    simp only [mapExcept, happ]
    cases d e with
    | error err => simp
    | ok v =>
      simp only [ih]
      cases mapExcept d es with
      | error err => simp
      | ok vs => simp

/-- C8: bulk hex-vector equivalence.  For every `Vec<Vec<u8>>`, in the
binary format and in the human-readable format, on the encode side and on
the decode side, the bulk reinterpretation through the transparent wrapper
(`hexvec`) produces exactly the same bytes, accepts exactly the same
inputs, and yields exactly the same values as the explicit element-wise
wrap of each buffer: the zero-copy trick is extensionally invisible. -/
theorem hexvec_bulk_equiv :
    (∀ vs, hexvecSerBin vs = hexvecSerBinElemwise vs) ∧
    (∀ vs, hexvecSerHuman vs = hexvecSerHumanElemwise vs) ∧
    (∀ input, hexvecDeBin input = hexvecDeBinElemwise input) ∧
    (∀ j, hexvecDeHuman j = hexvecDeHumanElemwise j) := by
  refine ⟨?_, ?_, ?_, ?_⟩
  · intro vs
    simp [hexvecSerBin, hexvecSerBinElemwise, castVecToHex, seqSerBin, List.map_map,
      Function.comp_def]
  · intro vs
    simp [hexvecSerHuman, hexvecSerHumanElemwise, castVecToHex, List.map_map,
      Function.comp_def]
  · intro input
    simp only [hexvecDeBin, hexvecDeBinElemwise, seqDeBin]
    cases decodeVarint input with
    | error e => simp
    | ok p =>
      obtain ⟨n, r⟩ := p
      simp only [decodeMany_postmap HexBytes.bytes hexBytesDeBin n r]
      cases decodeMany hexBytesDeBin n r with
      | error e => simp
      | ok q =>
        obtain ⟨hs, r2⟩ := q
        simp [castHexToVec]
  · intro j
    cases j with
    | str s => rfl
    | obj fs => rfl
    | arr es =>
      simp only [hexvecDeHuman, hexvecDeHumanElemwise, seqDeHuman,
        mapExcept_postmap HexBytes.bytes hexBytesDeHuman es]
      cases mapExcept hexBytesDeHuman es with
      | error err => simp
      | ok hs => simp [castHexToVec]

/-! ## tmelcrypt: majority beacon and ed25519 verification -/

/-- The helper of `majority_beacon` (translated from the source exactly,
including its comparison `member & (1 << bit_idx) == 1`): for each bit
index `0..8`, count the members whose masked value equals `1`, and set the
output bit when that count exceeds the count of the others.  A `HashVal`
byte is a `Nat` below 256. -/
def bitwise_majority (bytes : List Nat) : Nat :=
  (List.range 8).foldl
    (fun toret bitIdx =>
      let oneCount := (bytes.filter fun member => member &&& (1 <<< bitIdx) == 1).length
      let zeroCount := bytes.length - oneCount
      if oneCount > zeroCount then toret ||| (1 <<< bitIdx) else toret)
    0

/-- `majority_beacon`: byte `i` of the output is `bitwise_majority` of the
`i`-th bytes of the input hashes.  A `HashVal` is its list of 32 bytes. -/
def majority_beacon (elems : List (List Nat)) : List Nat :=
  (List.range 32).map fun i => bitwise_majority (elems.map fun v => v.getD i 0)

/-- C9 evaluated at the failing input: for the single input hash whose every
byte is `2` (bit 1 set in every byte), the claim requires every output byte
to be `2` (a strict majority — the only member — has bit 1 set), but
`majority_beacon` returns the all-zero hash: the comparison
`member & (1 << bit_idx) == 1` is false for every `bit_idx ≥ 1` whatever
the member, so no bit above 0 is ever set. -/
theorem majority_beacon_bug_eval :
    majority_beacon [List.replicate 32 2] = List.replicate 32 0 ∧
    bitwise_majority [2] = 0 ∧
    2 * (([2] : List Nat).filter fun member => decide (member &&& (1 <<< 1) ≠ 0)).length
      > ([2] : List Nat).length := by
  refine ⟨?_, by decide, by decide⟩
  decide

/-- An ed25519 public key: 32 bytes. -/
structure Ed25519PK where
  key : List Nat

/-- `Ed25519PK::verify`.  The cryptographic primitive
(`VerificationKey::try_from(...).and_then(|vk| vk.verify(&sig, msg)).is_ok()`
from `ed25519-consensus`) is an external collaborator of the spec, passed in
as the function `ed`; the source rejects any signature slice whose length is
not exactly 64 before touching it (the guard also protects the fixed-size
`array_ref` view of the signature from going out of bounds). -/
def Ed25519PK.verify (ed : List Nat → List Nat → List Nat → Bool)
    (pk : Ed25519PK) (msg sig : List Nat) : Bool :=
  if sig.length ≠ 64 then false
  else ed pk.key sig msg

/-- C10: for every external verifier, public key, message, and signature
slice whose length is not 64, `Ed25519PK::verify` returns `false` (total
function: it neither panics nor accepts such a signature). -/
theorem ed25519_verify_malformed_sig (ed : List Nat → List Nat → List Nat → Bool)
    (pk : Ed25519PK) (msg sig : List Nat) (h : sig.length ≠ 64) :
    Ed25519PK.verify ed pk msg sig = false := by
  simp [Ed25519PK.verify, h]

/-- Witness for C10: the empty signature is rejected even by an external
verifier that accepts everything. -/
theorem ed25519_verify_malformed_sig_witness :
    Ed25519PK.verify (fun _ _ _ => true) ⟨List.replicate 32 0⟩ [3] [] = false :=
  ed25519_verify_malformed_sig _ _ _ _ (by decide)

end ThemelioUtils
